import Mathlib

set_option autoImplicit false

/-!
Shallow embedding of the backup email ingestor microservice.

The Redis-backed store is modelled with association lists:
a Redis hash or string-keyed map is a `List (κ × α)` queried by `aget`,
a Redis sorted set is a `List (Member × Rat)` (member to score), and a
Redis set is a `List Member`.  Timestamps and scores are rationals; each
operation that reads the wall clock takes the current time as an explicit
`now` argument.
-/

namespace EmailIngestor

universe u v

/-- First value bound to key `k`, like a Redis hash/sorted-set lookup. -/
def aget {κ : Type u} {α : Type v} [DecidableEq κ] : List (κ × α) → κ → Option α
  | [], _ => none
  | e :: es, k => if e.1 = k then some e.2 else aget es k

/-- Remove every entry with key `k` (Redis `HDEL`/`ZREM`/`DEL`). -/
def arem {κ : Type u} {α : Type v} [DecidableEq κ] (l : List (κ × α)) (k : κ) : List (κ × α) :=
  l.filter (fun e => decide (e.1 ≠ k))

/-- Set key `k` to value `v`, replacing any previous binding (Redis `HSET`/`ZADD`/`SET`). -/
def aset {κ : Type u} {α : Type v} [DecidableEq κ] (l : List (κ × α)) (k : κ) (v : α) :
    List (κ × α) :=
  (k, v) :: arem l k

/-- Keys of an association list. -/
def akeys {κ : Type u} {α : Type v} (l : List (κ × α)) : List κ :=
  l.map Prod.fst

section AListLemmas

variable {κ : Type u} {α : Type v} [DecidableEq κ]

theorem aget_arem_self (l : List (κ × α)) (k : κ) : aget (arem l k) k = none := by
  induction l with
  | nil => rfl
  | cons e es ih =>
    by_cases h : e.1 = k
    · simpa [arem, h] using ih
    · simpa [arem, aget, h] using ih

theorem aget_arem_ne (l : List (κ × α)) {k k' : κ} (h : k' ≠ k) :
    aget (arem l k) k' = aget l k' := by
  induction l with
  | nil => rfl
  | cons e es ih =>
    by_cases he : e.1 = k
    · have hne : e.1 ≠ k' := fun hk => h (hk ▸ he)
      rw [show arem (e :: es) k = arem es k by simp [arem, List.filter_cons, he]]
      rw [ih]
      simp [aget, hne]
    · by_cases he' : e.1 = k'
      · simp [arem, aget, List.filter_cons, he, he', h]
      · simp [arem, aget, List.filter_cons, he, he'] at *
        exact ih

theorem aget_aset_self (l : List (κ × α)) (k : κ) (v : α) : aget (aset l k v) k = some v := by
  simp [aset, aget]

theorem aget_aset_ne (l : List (κ × α)) {k k' : κ} (v : α) (h : k' ≠ k) :
    aget (aset l k v) k' = aget l k' := by
  have : k ≠ k' := fun hk => h hk.symm
  simp [aset, aget, this, aget_arem_ne l h]

theorem aget_isSome_iff_mem_akeys (l : List (κ × α)) (k : κ) :
    (aget l k).isSome = true ↔ k ∈ akeys l := by
  induction l with
  | nil => simp [aget, akeys]
  | cons e es ih =>
    by_cases h : e.1 = k
    · simp [aget, akeys, h]
    · have h' : k ≠ e.1 := fun hk => h hk.symm
      simp [aget, akeys, h, h', ih]

theorem mem_of_aget_eq_some {l : List (κ × α)} {k : κ} {v : α} (h : aget l k = some v) :
    (k, v) ∈ l := by
  induction l with
  | nil => simp [aget] at h
  | cons e es ih =>
    by_cases he : e.1 = k
    · simp [aget, he] at h
      have hev : (k, v) = e := by
        cases e
        simp_all
      simp [hev]
    · simp [aget, he] at h
      exact List.mem_cons_of_mem _ (ih h)

theorem aget_of_mem_nodup {l : List (κ × α)} {k : κ} {v : α}
    (hmem : (k, v) ∈ l) (hnd : (akeys l).Nodup) : aget l k = some v := by
  induction l with
  | nil => simp at hmem
  | cons e es ih =>
    rcases List.mem_cons.mp hmem with h | h
    · simp [aget, ← h]
    · have hk : k ∈ akeys es := List.mem_map_of_mem Prod.fst h
      have hne : e.1 ≠ k := by
        intro he
        exact (List.nodup_cons.mp (by simpa [akeys] using hnd)).1 (he ▸ hk)
      have hnd' : (akeys es).Nodup := (List.nodup_cons.mp (by simpa [akeys] using hnd)).2
      simp [aget, hne]
      exact ih h hnd'

theorem akeys_arem_sublist (l : List (κ × α)) (k : κ) :
    (akeys (arem l k)).Sublist (akeys l) :=
  (List.filter_sublist l).map Prod.fst

theorem nodup_akeys_arem {l : List (κ × α)} (k : κ) (h : (akeys l).Nodup) :
    (akeys (arem l k)).Nodup :=
  h.sublist (akeys_arem_sublist l k)

theorem arem_eq_of_not_mem {l : List (κ × α)} {k : κ} (h : k ∉ akeys l) : arem l k = l := by
  induction l with
  | nil => rfl
  | cons e es ih =>
    have h1 : e.1 ≠ k := by
      intro he; exact h (by simp [akeys, he])
    have h2 : k ∉ akeys es := fun hk => h (by simp [akeys] at hk ⊢; right; exact hk)
    simp [arem, h1] at ih ⊢
    exact ih h2

theorem length_arem_add_one {l : List (κ × α)} {k : κ}
    (hnd : (akeys l).Nodup) (hmem : k ∈ akeys l) : (arem l k).length + 1 = l.length := by
  induction l with
  | nil => simp [akeys] at hmem
  | cons e es ih =>
    have hnd1 : e.1 ∉ akeys es := (List.nodup_cons.mp (by simpa [akeys] using hnd)).1
    have hnd2 : (akeys es).Nodup := (List.nodup_cons.mp (by simpa [akeys] using hnd)).2
    by_cases he : e.1 = k
    · have hes : arem es k = es := arem_eq_of_not_mem (he ▸ hnd1)
      have hdrop : arem (e :: es) k = arem es k := by
        simp [arem, List.filter_cons, he]
      rw [hdrop, hes]
      simp
    · have hk : k ∈ akeys es := by
        rcases (by simpa [akeys] using hmem : k = e.1 ∨ k ∈ akeys es) with h | h
        · exact absurd h.symm he
        · exact h
      have hkeep : arem (e :: es) k = e :: arem es k := by
        simp [arem, List.filter_cons, he]
      have := ih hnd2 hk
      rw [hkeep]
      simp only [List.length_cons]
      omega

theorem aget_foldl_arem (ks : List κ) (l : List (κ × α)) (k : κ) :
    aget (ks.foldl arem l) k = if k ∈ ks then none else aget l k := by
  induction ks generalizing l with
  | nil => simp
  | cons a as ih =>
    by_cases hmem : k ∈ as
    · simp [List.foldl_cons, ih, hmem]
    · by_cases hk : k = a
      · subst hk
        simp only [List.foldl_cons]
        rw [ih]
        simp [hmem, aget_arem_self]
      · simp [List.foldl_cons, ih, hmem, hk, aget_arem_ne l hk]

theorem aget_foldl_aset_const (ks : List κ) (l : List (κ × α)) (k : κ) (v : α) :
    aget (ks.foldl (fun m x => aset m x v) l) k = if k ∈ ks then some v else aget l k := by
  induction ks generalizing l with
  | nil => simp
  | cons a as ih =>
    by_cases hmem : k ∈ as
    · simp [List.foldl_cons, ih, hmem]
    · by_cases hk : k = a
      · subst hk
        simp only [List.foldl_cons]
        rw [ih]
        simp [hmem, aget_aset_self]
      · simp [List.foldl_cons, ih, hmem, hk, aget_aset_ne l v hk]

theorem isSome_aget_foldl_aset_pairs (ps : List (κ × α)) (l : List (κ × α)) (k : κ)
    (h : (aget (ps.foldl (fun m e => aset m e.1 e.2) l) k).isSome = true) :
    (aget l k).isSome = true ∨ k ∈ akeys ps := by
  induction ps generalizing l with
  | nil => simpa using Or.inl h
  | cons e es ih =>
    rcases ih (aset l e.1 e.2) (by simpa using h) with h1 | h1
    · by_cases hk : k = e.1
      · right; simp [akeys, hk]
      · rw [aget_aset_ne l e.2 hk] at h1
        exact Or.inl h1
    · right; simp [akeys] at h1 ⊢
      right; exact h1

end AListLemmas

/-! Redis sorted sets over string members with rational scores. -/

abbrev Member := String

abbrev ZSet := List (Member × Rat)

/-- Redis `ZSCORE`. -/
def zscore (z : ZSet) (m : Member) : Option Rat := aget z m

/-- Redis `ZADD` of a single member. -/
def zadd (z : ZSet) (m : Member) (s : Rat) : ZSet := aset z m s

/-- Redis `ZREM` of a single member. -/
def zrem (z : ZSet) (m : Member) : ZSet := arem z m

/-- Ordering used by Redis sorted sets: by score, ties by member string. -/
def zkeyLt (a b : Member × Rat) : Prop :=
  a.2 < b.2 ∨ (a.2 = b.2 ∧ a.1 < b.1)

instance (a b : Member × Rat) : Decidable (zkeyLt a b) := by
  unfold zkeyLt
  infer_instance

/-- Entry with the least (score, member) pair, i.e. rank 0 in `ZRANGE`. -/
def zminEntry : ZSet → Option (Member × Rat)
  | [] => none
  | e :: es =>
    match zminEntry es with
    | none => some e
    | some m => some (if zkeyLt m e then m else e)

theorem zminEntry_eq_none_iff (z : ZSet) : zminEntry z = none ↔ z = [] := by
  cases z with
  | nil => simp [zminEntry]
  | cons e es =>
    simp only [zminEntry]
    cases zminEntry es <;> simp

theorem zminEntry_spec (z : ZSet) :
    ∀ e, zminEntry z = some e → e ∈ z ∧ ∀ p ∈ z, e.2 ≤ p.2 := by
  induction z with
  | nil => intro e h; simp [zminEntry] at h
  | cons q es ih =>
    intro e h
    simp only [zminEntry] at h
    cases hq : zminEntry es with
    | none =>
      rw [hq] at h
      simp at h
      have hes : es = [] := (zminEntry_eq_none_iff es).mp hq
      subst hes
      subst h
      simp
    | some m =>
      rw [hq] at h
      simp at h
      rcases ih m hq with ⟨hm_mem, hm_le⟩
      by_cases hlt : zkeyLt m q
      · rw [if_pos hlt] at h
        subst h
        refine ⟨List.mem_cons_of_mem _ hm_mem, ?_⟩
        intro p hp
        rcases List.mem_cons.mp hp with h1 | h1
        · rw [h1]
          rcases hlt with h2 | h2
          · exact le_of_lt h2
          · exact le_of_eq h2.1
        · exact hm_le p h1
      · rw [if_neg hlt] at h
        subst h
        refine ⟨List.mem_cons_self q es, ?_⟩
        intro p hp
        rcases List.mem_cons.mp hp with h1 | h1
        · rw [h1]
        · have hqm : q.2 ≤ m.2 := le_of_not_lt (not_or.mp hlt).1
          exact le_trans hqm (hm_le p h1)

theorem zminEntry_mem {z : ZSet} {e : Member × Rat} (h : zminEntry z = some e) : e ∈ z :=
  (zminEntry_spec z e h).1

theorem zminEntry_le {z : ZSet} {e : Member × Rat} (h : zminEntry z = some e) :
    ∀ p ∈ z, e.2 ≤ p.2 :=
  (zminEntry_spec z e h).2

/--
Model of the Lua body of `EmailQueue._atomic_pop` restricted to a well-formed
sorted set: `ZRANGE queue 0 (k-1)` followed by `ZREM` of the returned members,
realised as `k` successive removals of the least entry.
-/
def zpopMinN : Nat → ZSet → List Member × ZSet
  | 0, z => ([], z)
  | n + 1, z =>
    match zminEntry z with
    | none => ([], z)
    | some e =>
      let r := zpopMinN n (zrem z e.1)
      (e.1 :: r.1, r.2)

theorem zscore_zpopMinN_rest (n : Nat) (z : ZSet) (m : Member) :
    zscore (zpopMinN n z).2 m = if m ∈ (zpopMinN n z).1 then none else zscore z m := by
  induction n generalizing z with
  | zero => simp [zpopMinN]
  | succ n ih =>
    cases hz : zminEntry z with
    | none => simp [zpopMinN, hz]
    | some e =>
      simp only [zpopMinN, hz]
      by_cases hmem : m ∈ (zpopMinN n (zrem z e.1)).1
      · simp [hmem, ih]
      · rw [ih (zrem z e.1)]
        by_cases hme : m = e.1
        · simp [hmem, hme, zscore, zrem, aget_arem_self]
        · have hz2 : zscore (zrem z e.1) m = zscore z m := aget_arem_ne z hme
          simp [hmem, hme, hz2]

theorem length_zpopMinN (n : Nat) (z : ZSet) (hnd : (akeys z).Nodup) :
    (zpopMinN n z).1.length = min n z.length := by
  induction n generalizing z with
  | zero => simp [zpopMinN]
  | succ n ih =>
    cases hz : zminEntry z with
    | none =>
      have : z = [] := (zminEntry_eq_none_iff z).mp hz
      subst this
      simp [zpopMinN, zminEntry]
    | some e =>
      have hmem : e.1 ∈ akeys z := List.mem_map_of_mem Prod.fst (zminEntry_mem hz)
      have hlen : (zrem z e.1).length + 1 = z.length := length_arem_add_one hnd hmem
      have hnd' : (akeys (zrem z e.1)).Nodup := nodup_akeys_arem e.1 hnd
      simp only [zpopMinN, hz, List.length_cons]
      rw [ih (zrem z e.1) hnd']
      omega

theorem isSome_zscore_of_mem_zpopMinN (n : Nat) (z : ZSet) (m : Member)
    (h : m ∈ (zpopMinN n z).1) : (zscore z m).isSome = true := by
  induction n generalizing z with
  | zero => simp [zpopMinN] at h
  | succ n ih =>
    cases hz : zminEntry z with
    | none => simp [zpopMinN, hz] at h
    | some e =>
      simp only [zpopMinN, hz] at h
      rcases List.mem_cons.mp h with h1 | h1
      · have : e.1 ∈ akeys z := List.mem_map_of_mem Prod.fst (zminEntry_mem hz)
        exact h1 ▸ (aget_isSome_iff_mem_akeys z e.1).mpr this
      · have hs := ih (zrem z e.1) h1
        by_cases hme : m = e.1
        · rw [hme, show zscore (zrem z e.1) e.1 = none from aget_arem_self z e.1] at hs
          simp at hs
        · rwa [show zscore (zrem z e.1) m = zscore z m from aget_arem_ne z hme] at hs

theorem zpopMinN_min_le (n : Nat) (z : ZSet) (hnd : (akeys z).Nodup) :
    ∀ m ∈ (zpopMinN n z).1, ∃ s, zscore z m = some s ∧
      ∀ m' s', zscore (zpopMinN n z).2 m' = some s' → s ≤ s' := by
  induction n generalizing z with
  | zero => simp [zpopMinN]
  | succ n ih =>
    intro m hm
    cases hz : zminEntry z with
    | none => simp [zpopMinN, hz] at hm
    | some e =>
      simp only [zpopMinN, hz] at hm ⊢
      rcases List.mem_cons.mp hm with h1 | h1
      · refine ⟨e.2, h1 ▸ aget_of_mem_nodup (zminEntry_mem hz) hnd, ?_⟩
        intro m' s' hs'
        have hz' := zscore_zpopMinN_rest n (zrem z e.1) m'
        rw [hs'] at hz'
        by_cases hmem : m' ∈ (zpopMinN n (zrem z e.1)).1
        · simp [hmem] at hz'
        · simp [hmem] at hz'
          have hin : (m', s') ∈ zrem z e.1 := mem_of_aget_eq_some hz'.symm
          exact zminEntry_le hz (m', s') (List.mem_of_mem_filter hin)
      · have hnd' : (akeys (zrem z e.1)).Nodup := nodup_akeys_arem e.1 hnd
        rcases ih (zrem z e.1) hnd' m h1 with ⟨s, hs, hmin⟩
        have hme : m ≠ e.1 := by
          intro hcontra
          rw [hcontra, show zscore (zrem z e.1) e.1 = none from aget_arem_self z e.1] at hs
          simp at hs
        have hz2 : zscore (zrem z e.1) m = zscore z m := aget_arem_ne z hme
        exact ⟨s, hz2 ▸ hs, hmin⟩

/-! Values held in a Redis hash field.  The service writes `str(v)` for every
field and relies on `HINCRBY` doing integer arithmetic on the stored text; the
embedding keeps integers produced by `HINCRBY` as `.int` so that the arithmetic
is explicit, and reads text fields through `String.toInt?` as Redis does. -/

inductive RVal where
  | str (v : String)
  | int (n : Int)
deriving DecidableEq

/-- Integer reading that Redis applies in `HINCRBY`: an absent field counts as 0. -/
def rvalInt : Option RVal → Int
  | some (.int n) => n
  | some (.str v) => (v.toInt?).getD 0
  | none => 0

/-- Text form of a stored hash value, as `HGETALL` returns it. -/
def rvalStr : RVal → String
  | .str v => v
  | .int n => toString n

abbrev Hash := List (String × RVal)

def hgetInt (h : Hash) (f : String) : Int := rvalInt (aget h f)

/-- Redis `HINCRBY`. -/
def hincrby (h : Hash) (f : String) (d : Int) : Hash :=
  aset h f (.int (hgetInt h f + d))

/-- Redis `HSET` of a stringified value (the service always writes `str(v)`). -/
def hsetStr (h : Hash) (f v : String) : Hash :=
  aset h f (.str v)

def hgetStr (h : Hash) (f : String) : Option String :=
  (aget h f).map rvalStr

/-- Entry of the `queue:failed` sorted set: the JSON blob `mark_failed` builds. -/
structure FailedRec where
  email_id : String
  error : String
  timestamp : String
  retry_count : Nat
deriving DecidableEq

/-- The shared Redis database: one field per key (family) the service uses. -/
structure Store where
  processedSet : List Member
  processedTTL : Nat
  pendingQueue : ZSet
  mainQueue : ZSet
  processing : ZSet
  failedQueue : List (FailedRec × Rat)
  emailData : List (Member × String × Nat)
  sessionCurrent : Hash
  sessionsHistory : List Hash
  sessionsByTime : List (String × String)
  metricsToday : Hash
  metricsTTL : Nat
  counters : List (String × Int)
deriving DecidableEq

def emptyStore : Store where
  processedSet := []
  processedTTL := 0
  pendingQueue := []
  mainQueue := []
  processing := []
  failedQueue := []
  emailData := []
  sessionCurrent := []
  sessionsHistory := []
  sessionsByTime := []
  metricsToday := []
  metricsTTL := 0
  counters := []

/-- Model of `RedisStorageManager.is_email_processed`: `SISMEMBER email:processed id`. -/
def is_email_processed (st : Store) (email_id : Member) : Bool :=
  st.processedSet.contains email_id

/-- Model of `EmailQueue.enqueue` (queue_manager.py:26-62): reject ids in the processed
set, reject ids with a score in `queue:emails`, otherwise store the payload
under `email:data:{id}` with a 24h TTL and `ZADD` the id with the given
priority, defaulting to the current timestamp. -/
def enqueue (st : Store) (email_id : Member) (email_data : String) (priority : Option Rat)
    (now : Rat) : Option Member × Store :=
  if is_email_processed st email_id then (none, st)
  else if (zscore st.mainQueue email_id).isSome then (none, st)
  else
    let p := priority.getD now
    (some email_id,
      { st with emailData := aset st.emailData email_id (email_data, 3600 * 24),
                mainQueue := zadd st.mainQueue email_id p })

/-- One iteration of the accumulation loop in `EmailQueue.enqueue_batch`
(queue_manager.py:90-100): skip processed or already-queued ids, otherwise
record the insertion (later duplicates overwrite the dict entries, ids are
appended to the accepted list) with default priority `now + i * 0.001`. -/
def batchStep (st : Store) (now : Rat)
    (acc : List (Member × Rat) × List (Member × String) × List Member)
    (item : Nat × Member × String × Option Rat) :
    List (Member × Rat) × List (Member × String) × List Member :=
  let i := item.1
  let email_id := item.2.1
  let email_data := item.2.2.1
  let priority := item.2.2.2
  if is_email_processed st email_id || (zscore st.mainQueue email_id).isSome then acc
  else
    let p := priority.getD (now + (i : Rat) * (1 / 1000))
    (aset acc.1 email_id p, aset acc.2.1 email_id email_data, acc.2.2 ++ [email_id])

/-- Model of `EmailQueue.enqueue_batch` (queue_manager.py:64-121). -/
def enqueue_batch (st : Store) (emails : List (Member × String × Option Rat)) (now : Rat) :
    List Member × Store :=
  let plan := emails.enum.foldl (batchStep st now) ([], [], [])
  if plan.1 = [] then ([], st)
  else
    (plan.2.2,
      { st with
          emailData := plan.2.1.foldl (fun d e => aset d e.1 (e.2, 3600 * 24)) st.emailData,
          mainQueue := plan.1.foldl (fun q e => zadd q e.1 e.2) st.mainQueue })

/-- Number of entries `ZRANGE key 0 (count-1)` selects from a sorted set of
`card` members.  Redis resolves a negative stop index relative to the end of
the set, so `count = 0` gives the stop index `-1`, which denotes the last
element: the whole set is selected. -/
def zrangeCount (count : Int) (card : Nat) : Nat :=
  let stop : Int := count - 1
  let stop' : Int := if stop < 0 then (card : Int) + stop else stop
  if stop' < 0 then 0 else min (stop'.toNat + 1) card

/-- Model of `EmailQueue._atomic_pop` (queue_manager.py:162-206): the Lua script reads
`ZRANGE queue:emails 0 (count-1)`, returns `{}` if that range is empty, and
otherwise atomically `ZREM`s the selected ids from the main queue and `ZADD`s
each of them into `queue:processing` with score `timestamp + 300`. -/
def _atomic_pop (st : Store) (count : Int) (now : Rat) : List Member × Store :=
  let k := zrangeCount count st.mainQueue.length
  let r := zpopMinN k st.mainQueue
  if r.1 = [] then ([], st)
  else
    (r.1,
      { st with mainQueue := r.2,
                processing := r.1.foldl (fun p id => zadd p id (now + 300)) st.processing })

/-- Model of `EmailQueue.dequeue_batch` (queue_manager.py:123-160): pop ids atomically,
fetch each payload from `email:data:{id}`, return the pairs whose payload is
present and re-`ZADD` ids with missing payloads back into the main queue with
the current timestamp as score. -/
def dequeue_batch (st : Store) (batch_size : Int) (now : Rat) :
    List (Member × String) × Store :=
  let pop := _atomic_pop st batch_size now
  if pop.1 = [] then ([], pop.2)
  else
    let fetched := pop.1.map (fun id => (id, (aget pop.2.emailData id).map Prod.fst))
    let result := fetched.filterMap (fun e => e.2.map (fun d => (e.1, d)))
    let missing := (fetched.filter (fun e => e.2.isNone)).map Prod.fst
    (result,
      { pop.2 with mainQueue := missing.foldl (fun q id => zadd q id now) pop.2.mainQueue })

/-- Model of `EmailQueue.mark_processed` (queue_manager.py:208-226): `ZREM` all ids from
`queue:processing` and delete each `email:data:{id}` key.  Nothing is written
to the `email:processed` set here. -/
def mark_processed (st : Store) (email_ids : List Member) : Store :=
  if email_ids = [] then st
  else
    { st with processing := email_ids.foldl arem st.processing,
              emailData := email_ids.foldl arem st.emailData }

/-- Model of `EmailQueue.mark_failed` (queue_manager.py:228-247). -/
def mark_failed (st : Store) (email_id : Member) (error : String) (nowIso : String)
    (now : Rat) : Store :=
  { st with processing := zrem st.processing email_id,
            failedQueue := aset st.failedQueue (FailedRec.mk email_id error nowIso 0) now }

/-- Model of `EmailQueue.requeue_timeouts` (queue_manager.py:249-278): collect the
members of `queue:processing` with score in `[0, now]`, `ZREM` each from the
processing set and `ZADD` it back into the main queue with score `now`. -/
def requeue_timeouts (st : Store) (now : Rat) : Nat × Store :=
  let timed_out := (st.processing.filter (fun e => decide (0 ≤ e.2 ∧ e.2 ≤ now))).map Prod.fst
  if timed_out = [] then (0, st)
  else
    (timed_out.length,
      { st with processing := timed_out.foldl arem st.processing,
                mainQueue := timed_out.foldl (fun q id => zadd q id now) st.mainQueue })

/-- Model of `EmailQueue.is_in_queue` (queue_manager.py:280-295). -/
def is_in_queue (st : Store) (email_id : Member) : Bool :=
  (zscore st.mainQueue email_id).isSome || (zscore st.processing email_id).isSome

/-! Disjointness of the main queue and the in-flight set. -/

/-- No member of `q` has a score in `p`. -/
def ZDisj (q p : ZSet) : Prop :=
  ∀ m, (zscore q m).isSome = true → zscore p m = none

/-- The invariant claimed for the store: `queue:emails ∩ queue:processing = ∅`. -/
def QDisjoint (st : Store) : Prop :=
  ZDisj st.mainQueue st.processing

theorem zdisj_zadd_left {q p : ZSet} (h : ZDisj q p) {id : Member} (s : Rat)
    (hid : zscore p id = none) : ZDisj (zadd q id s) p := by
  intro m hm
  by_cases hmid : m = id
  · exact hmid ▸ hid
  · refine h m ?_
    rwa [show zscore (zadd q id s) m = zscore q m from aget_aset_ne q s hmid] at hm

theorem zdisj_foldl_zadd_pairs {q p : ZSet} (h : ZDisj q p) (ins : List (Member × Rat))
    (hins : ∀ k ∈ akeys ins, zscore p k = none) :
    ZDisj (ins.foldl (fun q' e => zadd q' e.1 e.2) q) p := by
  intro m hm
  simp only [zadd] at hm
  rcases isSome_aget_foldl_aset_pairs ins q m hm with h1 | h1
  · exact h m h1
  · exact hins m h1

theorem zdisj_foldl_arem_right {q p : ZSet} (h : ZDisj q p) (ids : List Member) :
    ZDisj q (ids.foldl arem p) := by
  intro m hm
  rw [show zscore (ids.foldl arem p) m = if m ∈ ids then none else zscore p m from
    aget_foldl_arem ids p m]
  by_cases hmem : m ∈ ids
  · simp [hmem]
  · simp [hmem, h m hm]

theorem zdisj_pop {q p : ZSet} (h : ZDisj q p) (k : Nat) (s : Rat) :
    ZDisj (zpopMinN k q).2 ((zpopMinN k q).1.foldl (fun p' id => zadd p' id s) p) := by
  intro m hm
  have hq := zscore_zpopMinN_rest k q m
  by_cases hmem : m ∈ (zpopMinN k q).1
  · rw [hq, if_pos hmem] at hm
    simp at hm
  · rw [hq, if_neg hmem] at hm
    rw [show zscore ((zpopMinN k q).1.foldl (fun p' id => zadd p' id s) p) m =
        if m ∈ (zpopMinN k q).1 then some s else zscore p m from
      aget_foldl_aset_const (zpopMinN k q).1 p m s]
    simp [hmem, h m hm]

theorem zdisj_requeue {q p : ZSet} (h : ZDisj q p) (ids : List Member) (s : Rat) :
    ZDisj (ids.foldl (fun q' id => zadd q' id s) q) (ids.foldl arem p) := by
  intro m hm
  rw [show zscore (ids.foldl (fun q' id => zadd q' id s) q) m =
      if m ∈ ids then some s else zscore q m from aget_foldl_aset_const ids q m s] at hm
  rw [show zscore (ids.foldl arem p) m = if m ∈ ids then none else zscore p m from
    aget_foldl_arem ids p m]
  by_cases hmem : m ∈ ids
  · simp [hmem]
  · rw [if_neg hmem] at hm
    simp [hmem, h m hm]

theorem qdisjoint_atomic_pop {st : Store} (h : QDisjoint st) (count : Int) (now : Rat) :
    QDisjoint (_atomic_pop st count now).2 := by
  unfold _atomic_pop
  dsimp only
  split
  · exact h
  · exact zdisj_pop h (zrangeCount count st.mainQueue.length) (now + 300)

theorem pop_ids_mem_queue {st : Store} {count : Int} {now : Rat} {m : Member}
    (hm : m ∈ (_atomic_pop st count now).1) : (zscore st.mainQueue m).isSome = true := by
  unfold _atomic_pop at hm
  dsimp only at hm
  split at hm
  · simp at hm
  · exact isSome_zscore_of_mem_zpopMinN _ st.mainQueue m hm

theorem snd_mem_of_mem_enumFrom {α : Type u} :
    ∀ {l : List α} {n : Nat} {x : Nat × α}, x ∈ List.enumFrom n l → x.2 ∈ l := by
  intro l
  induction l with
  | nil => intro n x hx; simp [List.enumFrom] at hx
  | cons a as ih =>
    intro n x hx
    rcases List.mem_cons.mp hx with h1 | h1
    · simp [h1]
    · exact List.mem_cons_of_mem a (ih h1)

/--
Claim C1 (amended).  The operations that only move ids out of the main queue or
out of the in-flight set (`_atomic_pop`, `mark_processed`, `mark_failed`,
`requeue_timeouts`) unconditionally preserve `main ∩ inflight = ∅`.  `enqueue`
and `enqueue_batch` check only the processed set and the main queue, so they
preserve the disjointness only when the ids they accept are not currently
in-flight, and `dequeue_batch` preserves it only when every popped id still has
its payload (otherwise it re-queues an id it just moved in-flight).  The
unconditional invariant claimed by the specification fails (see the
counterexample).
-/
theorem c1_queue_disjointness (st : Store) (h : QDisjoint st) :
    (∀ id data pr now, zscore st.processing id = none →
        QDisjoint (enqueue st id data pr now).2)
    ∧ (∀ emails now, (∀ e ∈ emails, zscore st.processing e.1 = none) →
        QDisjoint (enqueue_batch st emails now).2)
    ∧ (∀ count now, QDisjoint (_atomic_pop st count now).2)
    ∧ (∀ bs now, (∀ m, (zscore st.mainQueue m).isSome = true →
          (aget st.emailData m).isSome = true) →
        QDisjoint (dequeue_batch st bs now).2)
    ∧ (∀ ids, QDisjoint (mark_processed st ids))
    ∧ (∀ id err ts now, QDisjoint (mark_failed st id err ts now))
    ∧ (∀ now, QDisjoint (requeue_timeouts st now).2) := by
  refine ⟨?_, ?_, ?_, ?_, ?_, ?_, ?_⟩
  · intro id data pr now hid
    unfold enqueue
    split
    · exact h
    split
    · exact h
    · exact zdisj_zadd_left h _ hid
  · intro emails now hin
    unfold enqueue_batch
    dsimp only
    split
    · exact h
    · refine zdisj_foldl_zadd_pairs h _ ?_
      intro k hk
      -- every inserted key is one of the batch ids
      suffices hsub : ∀ acc : List (Member × Rat) × List (Member × String) × List Member,
          k ∈ akeys (emails.enum.foldl (batchStep st now) (acc.1, acc.2.1, acc.2.2)).1 →
          k ∈ akeys acc.1 ∨ ∃ e ∈ emails, k = e.1 by
        rcases hsub ([], [], []) hk with h1 | ⟨e, he, hke⟩
        · simp [akeys] at h1
        · exact hke ▸ hin e he
      intro acc hacc
      -- fold over the enumerated list
      have main : ∀ (l : List (Nat × Member × String × Option Rat))
          (acc : List (Member × Rat) × List (Member × String) × List Member),
          k ∈ akeys (l.foldl (batchStep st now) acc).1 →
          k ∈ akeys acc.1 ∨ ∃ x ∈ l, k = x.2.1 := by
        intro l
        induction l with
        | nil => intro acc hx; exact Or.inl hx
        | cons x xs ih =>
          intro acc hx
          rcases ih (batchStep st now acc x) hx with h1 | ⟨y, hy, hky⟩
          · unfold batchStep at h1
            dsimp only at h1
            split at h1
            · exact Or.inl h1
            · rcases (by simpa [aset, akeys, arem] using h1 :
                  k = x.2.1 ∨ k ∈ akeys (arem acc.1 x.2.1)) with h2 | h2
              · exact Or.inr ⟨x, List.mem_cons_self x xs, h2⟩
              · have := (akeys_arem_sublist acc.1 x.2.1).mem h2
                exact Or.inl this
          · exact Or.inr ⟨y, List.mem_cons_of_mem x hy, hky⟩
      rcases main emails.enum (acc.1, acc.2.1, acc.2.2) hacc with h1 | ⟨x, hx, hkx⟩
      · exact Or.inl h1
      · refine Or.inr ⟨x.2, ?_, hkx⟩
        exact snd_mem_of_mem_enumFrom hx
  · intro count now
    exact qdisjoint_atomic_pop h count now
  · intro bs now hdata
    unfold dequeue_batch
    dsimp only
    split
    · exact qdisjoint_atomic_pop h bs now
    · -- all popped ids have payloads, so nothing is re-queued
      have hmissing :
          ((_atomic_pop st bs now).1.map
              (fun id => (id, (aget (_atomic_pop st bs now).2.emailData id).map Prod.fst))
            |>.filter (fun e => e.2.isNone)).map Prod.fst = [] := by
        have : ∀ e ∈ (_atomic_pop st bs now).1.map
            (fun id => (id, (aget (_atomic_pop st bs now).2.emailData id).map Prod.fst)),
            ¬ (e.2.isNone = true) := by
          intro e he
          rcases List.mem_map.mp he with ⟨id, hid, rfl⟩
          have h1 : (zscore st.mainQueue id).isSome = true := pop_ids_mem_queue hid
          have h2 : (aget st.emailData id).isSome = true := hdata id h1
          have h3 : (_atomic_pop st bs now).2.emailData = st.emailData := by
            unfold _atomic_pop
            dsimp only
            split <;> rfl
          rw [h3]
          rcases Option.isSome_iff_exists.mp h2 with ⟨v, hv⟩
          simp [hv]
        rw [List.filter_eq_nil_iff.mpr this]
        rfl
      rw [hmissing]
      simp only [List.foldl_nil]
      exact qdisjoint_atomic_pop h bs now
  · intro ids
    unfold mark_processed
    split
    · exact h
    · exact zdisj_foldl_arem_right h ids
  · intro id err ts now
    intro m hm
    unfold mark_failed at hm ⊢
    dsimp only at hm ⊢
    have := h m hm
    by_cases hmid : m = id
    · exact hmid ▸ aget_arem_self st.processing id
    · rw [show zscore (zrem st.processing id) m = zscore st.processing m from
        aget_arem_ne st.processing hmid]
      exact this
  · intro now
    unfold requeue_timeouts
    dsimp only
    split
    · exact h
    · exact zdisj_requeue h _ now

/-- Witness for C1 at a concrete store with one queued and one in-flight id. -/
theorem c1_queue_disjointness_witness :
    QDisjoint { emptyStore with mainQueue := [("a", 1)], processing := [("b", 300)] } ∧
    QDisjoint (enqueue { emptyStore with mainQueue := [("a", 1)], processing := [("b", 300)] }
      "c" "data" none 7).2 := by
  have h : QDisjoint { emptyStore with mainQueue := [("a", 1)], processing := [("b", 300)] } := by
    intro m hm
    have : m = "a" := by
      by_contra hne
      rw [show zscore ([("a", (1:Rat))]) m = none by simp [zscore, aget, hne, Ne.symm hne]] at hm
      simp at hm
    subst this
    decide
  exact ⟨h, (c1_queue_disjointness _ h).1 "c" "data" none 7 (by decide)⟩

/-- Counterexample to C1 as stated: starting from the empty store, enqueue id
`a`, atomically pop it (moving it in-flight), and enqueue `a` again.  The
second enqueue is accepted because `EmailQueue.enqueue` checks only the
processed set and `queue:emails`, never `queue:processing`, so `a` ends up in
both the main queue and the in-flight set. -/
theorem c1_queue_disjointness_counterexample :
    ¬ QDisjoint (enqueue
        (_atomic_pop (enqueue emptyStore "a" "p" none 0).2 1 10).2 "a" "p" none 20).2 := by
  intro h
  have h1 := h "a" (by decide)
  exact absurd h1 (by decide)

theorem zpopMinN_nil (k : Nat) : zpopMinN k [] = ([], []) := by
  cases k <;> simp [zpopMinN, zminEntry]

theorem zrangeCount_of_one_le {count : Int} (card : Nat) (h : 1 ≤ count) :
    zrangeCount count card = min count.toNat card := by
  unfold zrangeCount
  have h1 : ¬ (count - 1 < 0) := by omega
  dsimp only
  rw [if_neg h1, if_neg h1]
  have h2 : (count - 1).toNat + 1 = count.toNat := by omega
  rw [h2]

/-- Postcondition of `_atomic_pop` for a positive requested count. -/
def AtomicPopPost (st : Store) (count : Int) (now : Rat) (ids : List Member)
    (st' : Store) : Prop :=
  ids.length = min count.toNat st.mainQueue.length
  ∧ (∀ id ∈ ids, zscore st'.mainQueue id = none ∧
      zscore st'.processing id = some (now + 300))
  ∧ (∀ m, m ∉ ids → zscore st'.mainQueue m = zscore st.mainQueue m ∧
      zscore st'.processing m = zscore st.processing m)
  ∧ (∀ id ∈ ids, ∃ s, zscore st.mainQueue id = some s ∧
      ∀ m s', zscore st'.mainQueue m = some s' → s ≤ s')
  ∧ (st.mainQueue = [] → ids = [])

/--
Claim C2 (amended to `n ≥ 1`).  For every store and every requested count
`n ≥ 1`, `_atomic_pop` removes exactly the `min n |queue|` lowest-score ids
from `queue:emails` and, in the same step, gives each removed id the score
`now + 300` in `queue:processing`; all other members of both sorted sets keep
their scores, it returns `[]` on an empty queue, and every returned id is
in-flight afterwards.  For `n = 0` the claim fails: the Lua script's
`ZRANGE queue 0 (-1)` drains the whole queue (see the counterexample).
-/
theorem c2_atomic_dequeue (st : Store) (count : Int) (now : Rat) (h1 : 1 ≤ count)
    (h2 : (akeys st.mainQueue).Nodup) :
    AtomicPopPost st count now (_atomic_pop st count now).1 (_atomic_pop st count now).2 := by
  unfold _atomic_pop
  rw [zrangeCount_of_one_le st.mainQueue.length h1]
  dsimp only
  split
  · rename_i hids
    -- the selected range is empty: the queue must be empty
    have hlen := length_zpopMinN (min count.toNat st.mainQueue.length) st.mainQueue h2
    rw [hids] at hlen
    have hc : 1 ≤ count.toNat := by omega
    have hq : st.mainQueue.length = 0 := by
      simp at hlen
      omega
    have hqnil : st.mainQueue = [] := List.length_eq_zero.mp hq
    refine ⟨by simp [hq], by simp, ?_, by simp, fun _ => rfl⟩
    intro m _
    exact ⟨rfl, rfl⟩
  · rename_i hids
    set k := min count.toNat st.mainQueue.length with hk
    refine ⟨?_, ?_, ?_, ?_, ?_⟩
    · have := length_zpopMinN k st.mainQueue h2
      rw [this]
      omega
    · intro id hid
      constructor
      · rw [zscore_zpopMinN_rest k st.mainQueue id, if_pos hid]
      · rw [show zscore ((zpopMinN k st.mainQueue).1.foldl
            (fun p id => zadd p id (now + 300)) st.processing) id =
            if id ∈ (zpopMinN k st.mainQueue).1 then some (now + 300)
            else zscore st.processing id from
          aget_foldl_aset_const (zpopMinN k st.mainQueue).1 st.processing id (now + 300)]
        rw [if_pos hid]
    · intro m hm
      constructor
      · rw [zscore_zpopMinN_rest k st.mainQueue m, if_neg hm]
      · rw [show zscore ((zpopMinN k st.mainQueue).1.foldl
            (fun p id => zadd p id (now + 300)) st.processing) m =
            if m ∈ (zpopMinN k st.mainQueue).1 then some (now + 300)
            else zscore st.processing m from
          aget_foldl_aset_const (zpopMinN k st.mainQueue).1 st.processing m (now + 300)]
        rw [if_neg hm]
    · exact zpopMinN_min_le k st.mainQueue h2
    · intro hq
      exact absurd (by rw [hq, zpopMinN_nil]) hids

/-- Witness for C2 on a two-element queue with `n = 2`. -/
theorem c2_atomic_dequeue_witness :
    (1 : Int) ≤ 2 ∧
    (akeys ({ emptyStore with mainQueue := [("b", 2), ("a", 1)] } : Store).mainQueue).Nodup ∧
    AtomicPopPost { emptyStore with mainQueue := [("b", 2), ("a", 1)] } 2 0
      (_atomic_pop { emptyStore with mainQueue := [("b", 2), ("a", 1)] } 2 0).1
      (_atomic_pop { emptyStore with mainQueue := [("b", 2), ("a", 1)] } 2 0).2 :=
  ⟨by decide, by decide,
    c2_atomic_dequeue { emptyStore with mainQueue := [("b", 2), ("a", 1)] } 2 0
      (by decide) (by decide)⟩

/-- Counterexample to C2 as stated for every `n ≥ 0`: with `n = 0` the claim
requires nothing to be removed, but on a one-element queue the script pops
that element (Redis `ZRANGE key 0 (-1)` addresses the whole set). -/
theorem c2_atomic_dequeue_counterexample :
    (_atomic_pop { emptyStore with mainQueue := [("a", 1)] } 0 100).1 = ["a"] ∧
    (zscore (_atomic_pop { emptyStore with mainQueue := [("a", 1)] } 0 100).2.processing
      "a").isSome = true ∧
    ¬ (_atomic_pop { emptyStore with mainQueue := [("a", 1)] } 0 100).1.length ≤
        (0 : Int).toNat := by
  refine ⟨by decide, by decide, by decide⟩

/-- Postcondition of `enqueue` as the code implements it: acceptance is decided
by the processed set and the main queue only. -/
def EnqueuePost (st : Store) (id : Member) (data : String) (pr : Option Rat)
    (now : Rat) : Prop :=
  ((enqueue st id data pr now).1 = some id ↔
    is_email_processed st id = false ∧ (zscore st.mainQueue id).isSome = false)
  ∧ ((enqueue st id data pr now).1 = none ∨ (enqueue st id data pr now).1 = some id)
  ∧ (is_email_processed st id = false → (zscore st.mainQueue id).isSome = false →
      aget (enqueue st id data pr now).2.emailData id = some (data, 3600 * 24) ∧
      zscore (enqueue st id data pr now).2.mainQueue id = some (pr.getD now))
  ∧ ((enqueue st id data pr now).1 = none → (enqueue st id data pr now).2 = st)

/--
Claim C3 (amended).  `enqueue(id, payload, priority)` returns the id iff the id
is not in the processed set and has no score in the main queue `queue:emails`;
membership of the in-flight set `queue:processing` is not consulted (see the
counterexample).  On acceptance the payload is stored under `email:data:{id}`
with a 24-hour TTL and the id enters the main queue with score `priority`
(defaulting to the current timestamp); on rejection it returns `None` and the
store is unchanged.
-/
theorem c3_enqueue_acceptance (st : Store) (id : Member) (data : String) (pr : Option Rat)
    (now : Rat) : EnqueuePost st id data pr now := by
  unfold EnqueuePost
  by_cases h1 : is_email_processed st id = true
  · simp [enqueue, h1]
  · have h1' : is_email_processed st id = false := by
      cases h : is_email_processed st id
      · rfl
      · exact absurd h h1
    by_cases h2 : (zscore st.mainQueue id).isSome = true
    · simp [enqueue, h1', h2]
    · have h2' : (aget st.mainQueue id).isSome = false := by
        cases h : (zscore st.mainQueue id).isSome
        · exact h
        · exact absurd h h2
      simp [enqueue, h1', h2', zscore, zadd, aget_aset_self]

/-- An id outside the processed set and the main queue is always accepted. -/
theorem enqueue_accepts {st : Store} {id : Member}
    (hp : is_email_processed st id = false) (hq : (zscore st.mainQueue id).isSome = false)
    (data : String) (pr : Option Rat) (now : Rat) :
    (enqueue st id data pr now).1 = some id := by
  simp [enqueue, hp, hq]

/-- Witness for C3: enqueue into the empty store accepts and stores payload and
score. -/
theorem c3_enqueue_acceptance_witness : EnqueuePost emptyStore "a" "d" none 7 :=
  c3_enqueue_acceptance emptyStore "a" "d" none 7

/-- Counterexample to C3 as stated: with `a` only in the in-flight set
(`queue:processing`), the claim requires `enqueue` to return `None`, but the
code accepts the id because it never checks the in-flight set. -/
theorem c3_enqueue_acceptance_counterexample :
    (zscore ({ emptyStore with processing := [("a", 5)] } : Store).processing "a").isSome
      = true ∧
    (enqueue { emptyStore with processing := [("a", 5)] } "a" "d" none 0).1 = some "a" := by
  refine ⟨by decide, by decide⟩

/-- Postcondition of `mark_processed` as the code implements it. -/
def MarkProcessedPost (st : Store) (ids : List Member) (id : Member) : Prop :=
  zscore (mark_processed st ids).processing id = none
  ∧ aget (mark_processed st ids).emailData id = none
  ∧ (mark_processed st ids).processedSet = st.processedSet
  ∧ (mark_processed st ids).mainQueue = st.mainQueue
  ∧ (is_email_processed st id = false → (zscore st.mainQueue id).isSome = false →
      ∀ data pr now, (enqueue (mark_processed st ids) id data pr now).1 = some id)

/--
Claim C8 (amended).  After `mark_processed(ids)` every id of the batch has been
removed from the in-flight set and its payload key `email:data:{id}` has been
deleted, but `mark_processed` writes nothing to the processed set
(registration there is `mark_email_processed`, called separately during
processing): if the id was never registered, a later `enqueue` of the same id
is accepted again rather than returning `None` (see the counterexample).
-/
theorem c8_processed_after_drain (st : Store) (ids : List Member) (id : Member)
    (h : id ∈ ids) : MarkProcessedPost st ids id := by
  have hne : ids ≠ [] := by
    intro hnil
    subst hnil
    simp at h
  unfold MarkProcessedPost mark_processed
  rw [if_neg hne]
  refine ⟨?_, ?_, rfl, rfl, ?_⟩
  · rw [show zscore (ids.foldl arem st.processing) id =
        if id ∈ ids then none else zscore st.processing id from
      aget_foldl_arem ids st.processing id, if_pos h]
  · rw [show aget (ids.foldl arem st.emailData) id =
        if id ∈ ids then none else aget st.emailData id from
      aget_foldl_arem ids st.emailData id, if_pos h]
  · intro hp hq data pr now
    refine enqueue_accepts ?_ ?_ data pr now
    · exact hp
    · exact hq

/-- Store holding one in-flight id `a` with its stored payload. -/
def inflightStoreA : Store :=
  { emptyStore with processing := [("a", 310)], emailData := [("a", ("p", 86400))] }

/-- Witness for C8 on a store with one in-flight id and its payload. -/
theorem c8_processed_after_drain_witness :
    "a" ∈ ["a"] ∧ MarkProcessedPost inflightStoreA ["a"] "a" :=
  ⟨by decide, c8_processed_after_drain inflightStoreA ["a"] "a" (by decide)⟩

/-- Counterexample to C8 as stated: after `mark_processed(["a"])` the id is not
a member of the processed set and a later `enqueue` of `a` returns the id, not
`None`. -/
theorem c8_processed_after_drain_counterexample :
    is_email_processed (mark_processed inflightStoreA ["a"]) "a" = false ∧
    (enqueue (mark_processed inflightStoreA ["a"]) "a" "p" none 5).1 = some "a" := by
  refine ⟨by decide, by decide⟩

/-! Hash-field lemmas for the session record. -/

theorem hgetStr_hsetStr_self (h : Hash) (f v : String) :
    hgetStr (hsetStr h f v) f = some v := by
  simp [hgetStr, hsetStr, aget_aset_self, rvalStr]

theorem hgetStr_hsetStr_ne (h : Hash) {f f' : String} (v : String) (hne : f' ≠ f) :
    hgetStr (hsetStr h f v) f' = hgetStr h f' := by
  simp [hgetStr, hsetStr, aget_aset_ne h _ hne]

theorem hgetStr_hincrby_ne (h : Hash) {f f' : String} (d : Int) (hne : f' ≠ f) :
    hgetStr (hincrby h f d) f' = hgetStr h f' := by
  simp [hgetStr, hincrby, aget_aset_ne h _ hne]

theorem hgetInt_hincrby_self (h : Hash) (f : String) (d : Int) :
    hgetInt (hincrby h f d) f = hgetInt h f + d := by
  simp [hgetInt, hincrby, aget_aset_self, rvalInt]

theorem hsetStr_ne_nil (h : Hash) (f v : String) : hsetStr h f v ≠ [] := by
  simp [hsetStr, aset]

/-! Session manager operations (src/core/session_manager.py) over the same
store.  `get_session_state` is `HGETALL session:current`, empty when the key
is absent; every timestamp written is taken as an argument. -/

/-- Model of `SessionManager.complete_initial_polling` (session_manager.py:180-193):
guarded transition `both_active -> webhook_active`. -/
def complete_initial_polling (st : Store) (ts : String) : Bool × Store :=
  if st.sessionCurrent = [] ∨ hgetStr st.sessionCurrent "state" ≠ some "both_active" then
    (false, st)
  else
    let cur := hsetStr (hsetStr st.sessionCurrent "state" "webhook_active") "timestamp" ts
    (true, { st with sessionCurrent := cur })

/-- Model of `SessionManager.activate_fallback_polling` (session_manager.py:195-219):
guarded transition `webhook_active -> both_active`, incrementing
`webhook_errors` and recording the fallback reason. -/
def activate_fallback_polling (st : Store) (reason ts : String) : Bool × Store :=
  if st.sessionCurrent = [] then (false, st)
  else if hgetStr st.sessionCurrent "state" = some "webhook_active" then
    let cur := hsetStr (hsetStr (hincrby (hsetStr st.sessionCurrent "state" "both_active")
      "webhook_errors" 1) "fallback_reason" reason) "timestamp" ts
    (true, { st with sessionCurrent := cur })
  else (false, st)

/-- Model of `SessionManager.restore_webhook_only` (session_manager.py:221-237):
guarded transition `both_active -> webhook_active`, resetting
`webhook_errors` to the text `"0"`. -/
def restore_webhook_only (st : Store) (ts : String) : Bool × Store :=
  if st.sessionCurrent = [] then (false, st)
  else if hgetStr st.sessionCurrent "state" = some "both_active" then
    let cur := hsetStr (hsetStr (hsetStr st.sessionCurrent "state" "webhook_active")
      "webhook_errors" "0") "timestamp" ts
    (true, { st with sessionCurrent := cur })
  else (false, st)

/-- Model of `RedisStorageManager.save_session_history` (redis_manager.py:247-272):
`LPUSH` the serialized record, `LTRIM` to 100 entries, and index the session
id in `sessions:by_time` (the ISO-to-unix conversion of the score is kept as
the raw `start_time` text here). -/
def save_session_history (st : Store) (session : Hash) : Store :=
  { st with sessionsHistory := (session :: st.sessionsHistory).take 100,
            sessionsByTime :=
              match hgetStr session "session_id" with
              | some sid => aset st.sessionsByTime sid ((hgetStr session "start_time").getD "")
              | none => st.sessionsByTime }

/-- Model of `SessionManager.terminate_session` (session_manager.py:272-295): when a
current record exists, write `state = terminated`, `end_time` and
`termination_reason` into `session:current`, then snapshot that final record
into the history.  The code never deletes `session:current`. -/
def terminate_session (st : Store) (reason endTime : String) : Store :=
  if st.sessionCurrent = [] then st
  else
    let cur := hsetStr (hsetStr (hsetStr st.sessionCurrent "state" "terminated")
      "end_time" endTime) "termination_reason" reason
    save_session_history { st with sessionCurrent := cur } cur

/-- Model of `RedisStorageManager.mark_email_processed` (redis_manager.py:83-102):
`SADD email:processed id`, refresh the set's bulk TTL (default 30 days), and
report whether the id was new. -/
def mark_email_processed (st : Store) (email_id : Member) (ttl : Option Nat) : Bool × Store :=
  let isNew := !(st.processedSet.contains email_id)
  let pset := if st.processedSet.contains email_id then st.processedSet
              else email_id :: st.processedSet
  (isNew, { st with processedSet := pset, processedTTL := ttl.getD (30 * 24 * 3600) })

/-- Model of `RedisStorageManager.remove_pending` (redis_manager.py:155-157). -/
def remove_pending (st : Store) (email_id : Member) : Store :=
  { st with pendingQueue := zrem st.pendingQueue email_id }

/-- Model of `RedisStorageManager.increment_metric` (redis_manager.py:402-418) for
today's metrics hash, refreshing its 90-day TTL. -/
def increment_metric (st : Store) (metric : String) (amount : Int) : Store :=
  { st with metricsToday := hincrby st.metricsToday metric amount,
            metricsTTL := 90 * 24 * 3600 }

/-- Model of `RedisStorageManager.increment_counter` (redis_manager.py:436-447):
`INCR counter:{name}`. -/
def increment_counter (st : Store) (counter : String) : Int × Store :=
  ((aget st.counters counter).getD 0 + 1,
    { st with counters := aset st.counters counter ((aget st.counters counter).getD 0 + 1) })

/-- Model of `SessionManager.register_processed_email` (session_manager.py:239-249):
register the id in the processed set and, only when it is new, drop it from
the pending queue and bump the session counter, the daily metric and the
lifetime counter. -/
def register_processed_email (st : Store) (email_id : Member) : Bool × Store :=
  let r := mark_email_processed st email_id none
  if r.1 then
    let st1 := remove_pending r.2 email_id
    let st2 := { st1 with sessionCurrent := hincrby st1.sessionCurrent "processed_count" 1 }
    let st3 := increment_metric st2 "emails_processed" 1
    (true, (increment_counter st3 "total_processed").2)
  else (false, r.2)

/-- Guards and effects of the three session transitions, as the code
implements them. -/
def SessionGuardPost (st : Store) (reason ts : String) : Prop :=
  (hgetStr st.sessionCurrent "state" = some "both_active" →
    (complete_initial_polling st ts).1 = true ∧
    hgetStr (complete_initial_polling st ts).2.sessionCurrent "state" = some "webhook_active")
  ∧ (hgetStr st.sessionCurrent "state" ≠ some "both_active" →
    complete_initial_polling st ts = (false, st))
  ∧ (hgetStr st.sessionCurrent "state" = some "webhook_active" →
    (activate_fallback_polling st reason ts).1 = true ∧
    hgetStr (activate_fallback_polling st reason ts).2.sessionCurrent "state" =
      some "both_active")
  ∧ (hgetStr st.sessionCurrent "state" ≠ some "webhook_active" →
    activate_fallback_polling st reason ts = (false, st))
  ∧ (hgetStr st.sessionCurrent "state" = some "both_active" →
    (restore_webhook_only st ts).1 = true ∧
    hgetStr (restore_webhook_only st ts).2.sessionCurrent "state" = some "webhook_active" ∧
    hgetStr (restore_webhook_only st ts).2.sessionCurrent "webhook_errors" = some "0")
  ∧ (hgetStr st.sessionCurrent "state" ≠ some "both_active" →
    restore_webhook_only st ts = (false, st))

theorem hgetStr_nil (f : String) : hgetStr ([] : Hash) f = none := rfl

theorem sessionCurrent_ne_nil_of_state {st : Store} {s : String}
    (h : hgetStr st.sessionCurrent "state" = some s) : st.sessionCurrent ≠ [] := by
  intro hnil
  rw [hnil, hgetStr_nil] at h
  exact Option.noConfusion h

/--
Claim C5 (confirmed).  `complete_initial_polling` succeeds (moving the
persisted state to `webhook_active`) exactly from `both_active`;
`activate_fallback_polling` succeeds (moving to `both_active`) exactly from
`webhook_active`; `restore_webhook_only` succeeds exactly from `both_active`,
setting the state to `webhook_active` and resetting `webhook_errors` to 0.
Called in any other state (or with no session record), each returns false and
leaves the store, in particular the state field, unchanged.
-/
theorem c5_session_state_guards (st : Store) (reason ts : String) :
    SessionGuardPost st reason ts := by
  unfold SessionGuardPost
  refine ⟨?_, ?_, ?_, ?_, ?_, ?_⟩
  · intro h
    have hne : ¬(st.sessionCurrent = [] ∨
        hgetStr st.sessionCurrent "state" ≠ some "both_active") := by
      rintro (h1 | h1)
      · exact sessionCurrent_ne_nil_of_state h h1
      · exact h1 h
    unfold complete_initial_polling
    rw [if_neg hne]
    dsimp only
    refine ⟨rfl, ?_⟩
    rw [hgetStr_hsetStr_ne _ ts (by decide), hgetStr_hsetStr_self]
  · intro h
    unfold complete_initial_polling
    rw [if_pos (Or.inr h)]
  · intro h
    have hne : st.sessionCurrent ≠ [] := sessionCurrent_ne_nil_of_state h
    unfold activate_fallback_polling
    rw [if_neg hne, if_pos h]
    dsimp only
    refine ⟨rfl, ?_⟩
    rw [hgetStr_hsetStr_ne _ ts (by decide), hgetStr_hsetStr_ne _ reason (by decide),
      hgetStr_hincrby_ne _ 1 (by decide), hgetStr_hsetStr_self]
  · intro h
    unfold activate_fallback_polling
    by_cases hnil : st.sessionCurrent = []
    · rw [if_pos hnil]
    · rw [if_neg hnil, if_neg h]
  · intro h
    have hne : st.sessionCurrent ≠ [] := sessionCurrent_ne_nil_of_state h
    unfold restore_webhook_only
    rw [if_neg hne, if_pos h]
    dsimp only
    refine ⟨rfl, ?_, ?_⟩
    · rw [hgetStr_hsetStr_ne _ ts (by decide), hgetStr_hsetStr_ne _ "0" (by decide),
        hgetStr_hsetStr_self]
    · rw [hgetStr_hsetStr_ne _ ts (by decide), hgetStr_hsetStr_self]
  · intro h
    unfold restore_webhook_only
    by_cases hnil : st.sessionCurrent = []
    · rw [if_pos hnil]
    · rw [if_neg hnil, if_neg h]

/-- Session record in state `both_active`. -/
def bothActiveStore : Store :=
  { emptyStore with sessionCurrent := [("session_id", RVal.str "s1"),
      ("state", RVal.str "both_active"), ("webhook_errors", RVal.str "2")] }

/-- Session record in state `webhook_active`. -/
def webhookActiveStore : Store :=
  { emptyStore with sessionCurrent := [("session_id", RVal.str "s1"),
      ("state", RVal.str "webhook_active")] }

/-- Witness for C5: the three transitions fire from their guard states; a
transition attempted from the wrong state returns false and changes nothing. -/
theorem c5_session_state_guards_witness :
    (complete_initial_polling bothActiveStore "t").1 = true ∧
    (activate_fallback_polling webhookActiveStore "r" "t").1 = true ∧
    ((restore_webhook_only bothActiveStore "t").1 = true ∧
      hgetStr (restore_webhook_only bothActiveStore "t").2.sessionCurrent "webhook_errors" =
        some "0") ∧
    complete_initial_polling webhookActiveStore "t" = (false, webhookActiveStore) := by
  refine ⟨((c5_session_state_guards bothActiveStore "r" "t").1 (by decide)).1,
    ((c5_session_state_guards webhookActiveStore "r" "t").2.2.1 (by decide)).1,
    ⟨((c5_session_state_guards bothActiveStore "r" "t").2.2.2.2.1 (by decide)).1,
      ((c5_session_state_guards bothActiveStore "r" "t").2.2.2.2.1 (by decide)).2.2⟩,
    (c5_session_state_guards webhookActiveStore "r" "t").2.1 (by decide)⟩

/-- What `terminate_session` leaves behind when a session record exists. -/
def TerminatePost (st : Store) (reason endTime : String) : Prop :=
  hgetStr (terminate_session st reason endTime).sessionCurrent "state" = some "terminated"
  ∧ hgetStr (terminate_session st reason endTime).sessionCurrent "end_time" = some endTime
  ∧ hgetStr (terminate_session st reason endTime).sessionCurrent "termination_reason" =
      some reason
  ∧ (terminate_session st reason endTime).sessionsHistory.head? =
      some (terminate_session st reason endTime).sessionCurrent
  ∧ (terminate_session st reason endTime).sessionCurrent ≠ []

/--
Claim C6 (amended).  When a current session record exists,
`terminate_session(reason)` writes the terminated state, `end_time` and the
termination reason into the record and appends a snapshot of that final record
to the head of the session history list, but it never deletes `session:current`:
immediately after `terminate_session` returns, the current-session record is
still present (with state `terminated`).  The claimed clearing of the record
does not happen (see the counterexample).
-/
theorem c6_session_termination (st : Store) (reason endTime : String)
    (h : st.sessionCurrent ≠ []) : TerminatePost st reason endTime := by
  unfold TerminatePost terminate_session save_session_history
  rw [if_neg h]
  dsimp only
  refine ⟨?_, ?_, ?_, ?_, ?_⟩
  · rw [hgetStr_hsetStr_ne _ reason (by decide), hgetStr_hsetStr_ne _ endTime (by decide),
      hgetStr_hsetStr_self]
  · rw [hgetStr_hsetStr_ne _ reason (by decide), hgetStr_hsetStr_self]
  · rw [hgetStr_hsetStr_self]
  · rfl
  · exact hsetStr_ne_nil _ _ _

/-- Session record used for the termination claim. -/
def liveSessionStore : Store :=
  { emptyStore with sessionCurrent := [("session_id", RVal.str "s1"),
      ("state", RVal.str "webhook_active"), ("start_time", RVal.str "t0")] }

/-- Witness for C6 on a live session record. -/
theorem c6_session_termination_witness :
    liveSessionStore.sessionCurrent ≠ [] ∧ TerminatePost liveSessionStore "done" "te" :=
  ⟨by decide, c6_session_termination liveSessionStore "done" "te" (by decide)⟩

/-- Counterexample to C6 as stated: after `terminate_session` on a live
session, the claim requires that no `session:current` record remains, but the
record is still there, holding the terminated state. -/
theorem c6_session_termination_counterexample :
    (terminate_session liveSessionStore "done" "te").sessionCurrent ≠ [] ∧
    hgetStr (terminate_session liveSessionStore "done" "te").sessionCurrent "state" =
      some "terminated" := by
  refine ⟨by decide, by decide⟩

/-- Effects of a first-time `register_processed_email` call. -/
def RegisterProcessedPost (st : Store) (id : Member) : Prop :=
  (register_processed_email st id).1 = true
  ∧ (register_processed_email st id).2.processedSet.contains id = true
  ∧ zscore (register_processed_email st id).2.pendingQueue id = none
  ∧ hgetInt (register_processed_email st id).2.sessionCurrent "processed_count" =
      hgetInt st.sessionCurrent "processed_count" + 1
  ∧ hgetInt (register_processed_email st id).2.metricsToday "emails_processed" =
      hgetInt st.metricsToday "emails_processed" + 1
  ∧ (aget (register_processed_email st id).2.counters "total_processed").getD 0 =
      (aget st.counters "total_processed").getD 0 + 1

/--
Claim C10 (confirmed).  The first `register_processed_email(id)` call returns
true, adds the id to the processed set, removes it from the pending queue, and
increments the `processed_count` session counter, the daily `emails_processed`
metric and the lifetime `total_processed` counter by exactly 1; a call on a
store that already holds the id in the processed set (with the registration
TTL in place) returns false and leaves the store unchanged.
-/
theorem c10_idempotent_register (st st' : Store) (id : Member)
    (h1 : st.processedSet.contains id = false)
    (h2 : st'.processedSet.contains id = true)
    (h3 : st'.processedTTL = 30 * 24 * 3600) :
    RegisterProcessedPost st id ∧ register_processed_email st' id = (false, st') := by
  constructor
  · have hmem : id ∉ st.processedSet := by simpa using h1
    have hm : mark_email_processed st id none =
        (true, { st with processedSet := id :: st.processedSet, processedTTL := 2592000 }) := by
      simp [mark_email_processed, hmem]
    unfold RegisterProcessedPost register_processed_email
    rw [hm]
    dsimp only
    rw [if_pos rfl]
    unfold remove_pending increment_metric increment_counter
    dsimp only
    refine ⟨rfl, ?_, ?_, ?_, ?_, ?_⟩
    · simp
    · exact aget_arem_self st.pendingQueue id
    · exact hgetInt_hincrby_self st.sessionCurrent "processed_count" 1
    · exact hgetInt_hincrby_self st.metricsToday "emails_processed" 1
    · rw [aget_aset_self]
      rfl
  · have hmem : id ∈ st'.processedSet := by simpa using h2
    have hm : mark_email_processed st' id none =
        (false, { st' with processedSet := st'.processedSet, processedTTL := 2592000 }) := by
      simp [mark_email_processed, hmem]
    unfold register_processed_email
    rw [hm]
    dsimp only
    rw [if_neg (by simp)]
    have h3' : st'.processedTTL = 2592000 := by rw [h3]
    rw [← h3']

/-- Store that already registered id `a` with the 30-day bulk TTL. -/
def registeredStoreA : Store :=
  { emptyStore with processedSet := ["a"], processedTTL := 2592000 }

/-- Witness for C10: first registration of `a` on the empty store, repeat
registration on a store already holding `a`. -/
theorem c10_idempotent_register_witness :
    emptyStore.processedSet.contains "a" = false ∧
    registeredStoreA.processedSet.contains "a" = true ∧
    registeredStoreA.processedTTL = 30 * 24 * 3600 ∧
    (RegisterProcessedPost emptyStore "a" ∧
      register_processed_email registeredStoreA "a" = (false, registeredStoreA)) :=
  ⟨by decide, by decide, by decide,
    c10_idempotent_register emptyStore registeredStoreA "a" (by decide) (by decide) (by decide)⟩

/-! Retry decorator `api_retry` (src/utils/api_retry.py).  A wrapped async call
is a function from the attempt index to its outcome; the decorator's trace
records the final result, the number of attempts issued and the sleeps
performed.  A `Retry-After` header arrives either as integer seconds or as an
HTTP date, modelled by its signed offset from the current time. -/

inductive RaVal where
  | secs (n : Int)
  | httpDate (delta : Rat)
deriving DecidableEq

inductive CallResult where
  | ok (v : Nat)
  | httpErr (status : Nat) (retryAfter : Option RaVal)
  | netErr
deriving DecidableEq

inductive RetryEnd where
  | value (v : Nat)
  | raisedHttp (status : Nat)
  | raisedNet
  | raisedRuntime
deriving DecidableEq

structure RetryTrace where
  result : RetryEnd
  attemptsMade : Nat
  sleeps : List Rat
deriving DecidableEq

/-- Sleep computed for a retryable failure (api_retry.py:24-38): the
`Retry-After` header wins when present, otherwise the current backoff plus
jitter; a negative delay is clamped to zero. -/
def retryDelay (backoff jit : Rat) (ra : Option RaVal) : Rat :=
  let d : Rat :=
    match ra with
    | some (.secs n) => (n : Rat)
    | some (.httpDate delta) => delta
    | none => backoff + jit
  if d < 0 then 0 else d

/-- The loop of `api_retry` (api_retry.py:15-56): `remaining` is the number of
attempts the `while retries < max_retries` guard still allows, `attempt` the
index of the next call, `backoff` the current backoff value and `lastStatus`
the status of the last retryable failure (the saved `last_exception`).
Statuses 429 and 503 are retried; every other HTTP status and every network
error (`httpx.RequestError`) is re-raised at once; exhausting the attempts
re-raises the last exception (a bare `RuntimeError` when none was caught). -/
def apiRetryGo (calls : Nat → CallResult) (jit : Nat → Rat) (factor : Rat) :
    Nat → Nat → Rat → Option Nat → List Rat → RetryTrace
  | 0, attempt, _, lastStatus, sleeps =>
    match lastStatus with
    | some s => ⟨.raisedHttp s, attempt, sleeps⟩
    | none => ⟨.raisedRuntime, attempt, sleeps⟩
  | r + 1, attempt, backoff, _, sleeps =>
    match calls attempt with
    | .ok v => ⟨.value v, attempt + 1, sleeps⟩
    | .httpErr s ra =>
      if s = 429 ∨ s = 503 then
        apiRetryGo calls jit factor r (attempt + 1) (backoff * factor) (some s)
          (sleeps ++ [retryDelay backoff (jit attempt) ra])
      else ⟨.raisedHttp s, attempt + 1, sleeps⟩
    | .netErr => ⟨.raisedNet, attempt + 1, sleeps⟩

/-- Model of `api_retry(max_retries, initial_backoff, backoff_factor)` applied to a
wrapped call. -/
def api_retry (maxRetries : Nat) (initialBackoff factor : Rat)
    (calls : Nat → CallResult) (jit : Nat → Rat) : RetryTrace :=
  apiRetryGo calls jit factor maxRetries 0 initialBackoff none []

theorem apiRetryGo_all_503 (calls : Nat → CallResult) (jit : Nat → Rat) (factor : Rat)
    (h : ∀ k, calls k = .httpErr 503 none) (hf : 0 ≤ factor) (hj : ∀ k, 0 ≤ jit k) :
    ∀ (r attempt : Nat) (backoff : Rat) (sleeps : List Rat) (ls : Option Nat),
      0 ≤ backoff →
      apiRetryGo calls jit factor (r + 1) attempt backoff ls sleeps =
        ⟨.raisedHttp 503, attempt + (r + 1),
          sleeps ++ (List.range (r + 1)).map (fun k => backoff * factor ^ k + jit (attempt + k))⟩ := by
  intro r
  induction r with
  | zero =>
    intro attempt backoff sleeps ls hb
    have hd : retryDelay backoff (jit attempt) none = backoff + jit attempt := by
      unfold retryDelay
      rw [if_neg (not_lt.mpr (add_nonneg hb (hj attempt)))]
    simp [apiRetryGo, h, hd]
    rw [show List.range 1 = [0] from rfl]
    simp
  | succ r ih =>
    intro attempt backoff sleeps ls hb
    have hd : retryDelay backoff (jit attempt) none = backoff + jit attempt := by
      unfold retryDelay
      rw [if_neg (not_lt.mpr (add_nonneg hb (hj attempt)))]
    have hstep : apiRetryGo calls jit factor (r + 1 + 1) attempt backoff ls sleeps =
        apiRetryGo calls jit factor (r + 1) (attempt + 1) (backoff * factor) (some 503)
          (sleeps ++ [backoff + jit attempt]) := by
      conv_lhs => rw [show r + 1 + 1 = (r + 1) + 1 from rfl]
      simp [apiRetryGo, h, hd]
    rw [hstep, ih (attempt + 1) (backoff * factor) (sleeps ++ [backoff + jit attempt])
      (some 503) (mul_nonneg hb hf)]
    have hatt : attempt + 1 + (r + 1) = attempt + (r + 1 + 1) := by omega
    have hsl : (sleeps ++ [backoff + jit attempt]) ++
        (List.range (r + 1)).map
          (fun k => backoff * factor * factor ^ k + jit (attempt + 1 + k)) =
        sleeps ++ (List.range (r + 1 + 1)).map
          (fun k => backoff * factor ^ k + jit (attempt + k)) := by
      rw [List.append_assoc]
      congr 1
      rw [List.singleton_append]
      conv_rhs => rw [List.range_succ_eq_map, List.map_cons, List.map_map]
      congr 1
      · simp
      · refine List.map_congr_left ?_
        intro k _
        simp only [Function.comp]
        have h1 : attempt + 1 + k = attempt + (k + 1) := by omega
        rw [h1, pow_succ]
        have h2 : backoff * factor * factor ^ k = backoff * (factor ^ k * factor) := by
          ring
        rw [h2]
    rw [hatt, hsl]

/-- Behaviour of the retry decorator on a wrapped call. -/
def ApiRetryPost (m : Nat) (b f : Rat) (calls : Nat → CallResult) (jit : Nat → Rat) : Prop :=
  (∀ s ra, calls 0 = CallResult.httpErr s ra → s ≠ 429 → s ≠ 503 →
    api_retry (m + 1) b f calls jit = ⟨RetryEnd.raisedHttp s, 1, []⟩)
  ∧ (calls 0 = CallResult.netErr →
    api_retry (m + 1) b f calls jit = ⟨RetryEnd.raisedNet, 1, []⟩)
  ∧ (∀ n v, calls 0 = CallResult.httpErr 429 (some (RaVal.secs n)) → 0 ≤ n →
      calls 1 = CallResult.ok v →
    api_retry (m + 2) b f calls jit = ⟨RetryEnd.value v, 2, [(n : Rat)]⟩)
  ∧ ((∀ k, calls k = CallResult.httpErr 503 none) →
    api_retry (m + 1) b f calls jit = ⟨RetryEnd.raisedHttp 503, m + 1,
      (List.range (m + 1)).map (fun k => b * f ^ k + jit k)⟩)

/--
Claim C4 (amended).  The `api_retry` decorator retries attempts failing with
HTTP 429 or 503, honouring a non-negative `Retry-After` header and otherwise
sleeping `initial_backoff * backoff_factor ^ attempt` plus the jitter sample;
any other HTTP status propagates immediately without retry, and after
`max_retries` failed retryable attempts the last exception is re-raised.
Contrary to the claim, network errors are NOT retried: an
`httpx.RequestError` is re-raised at once after a single attempt (see the
counterexample).
-/
theorem c4_retry_policy (m : Nat) (b f : Rat) (calls : Nat → CallResult) (jit : Nat → Rat)
    (hb : 0 ≤ b) (hf : 0 ≤ f) (hj : ∀ k, 0 ≤ jit k) : ApiRetryPost m b f calls jit := by
  unfold ApiRetryPost
  refine ⟨?_, ?_, ?_, ?_⟩
  · intro s ra h0 h429 h503
    simp [api_retry, apiRetryGo, h0, h429, h503]
  · intro h0
    simp [api_retry, apiRetryGo, h0]
  · intro n v h0 hn h1
    have hd : retryDelay b (jit 0) (some (RaVal.secs n)) = (n : Rat) := by
      unfold retryDelay
      dsimp only
      rw [if_neg (not_lt.mpr (by exact_mod_cast hn))]
    simp [api_retry, apiRetryGo, h0, h1, hd]
  · intro hall
    unfold api_retry
    rw [apiRetryGo_all_503 calls jit f hall hf hj m 0 b [] none hb]
    simp

/-- Witness for C4 on the all-503 call with backoff 1 and factor 2. -/
theorem c4_retry_policy_witness :
    (0 : Rat) ≤ 1 ∧ (0 : Rat) ≤ 2 ∧
    ApiRetryPost 1 1 2 (fun _ => CallResult.httpErr 503 none) (fun _ => 0) :=
  ⟨by norm_num, by norm_num,
    c4_retry_policy 1 1 2 (fun _ => CallResult.httpErr 503 none) (fun _ => 0)
      (by norm_num) (by norm_num) (fun _ => le_refl 0)⟩

/-- Counterexample to C4 as stated: with `max_retries = 5`, a network error on
the first attempt is re-raised after exactly one attempt with no sleeps — the
decorator's `except httpx.RequestError` branch raises instead of retrying. -/
theorem c4_retry_policy_counterexample :
    api_retry 5 1 2 (fun _ => CallResult.netErr) (fun _ => 0) =
      ⟨RetryEnd.raisedNet, 1, []⟩ := by
  rfl

/-! Polling service (src/core/polling_service.py). -/

inductive TriggerMode where
  | manual
  | scheduled
  | fallback
deriving DecidableEq

inductive LoopStep where
  | skippedSleep
  | ranPollThenWait
deriving DecidableEq

/-- One iteration of `PollingService._polling_loop` (polling_service.py:210-234).
The loop consults only `self.mode`: `if self.mode != TriggerMode.FALLBACK`
it logs that the loop is paused, sleeps `interval` seconds and `continue`s;
only in fallback mode does it run `poll_once` and then wait.  The session
state is never read inside the loop. -/
def polling_loop_iteration (mode : TriggerMode) : LoopStep :=
  if mode ≠ TriggerMode.fallback then .skippedSleep else .ranPollThenWait

/-- Model of `PollingService.start` (polling_service.py:42-60): the background thread
running `_polling_loop` is launched for the scheduled and fallback modes
whenever the service is not already active. -/
def polling_start_launches_loop (active : Bool) (mode : TriggerMode) : Bool :=
  !active && (mode == TriggerMode.scheduled || mode == TriggerMode.fallback)

/--
Claim C7 (amended).  Starting the polling service in scheduled mode does
launch the background polling loop, but an iteration of that loop runs the
poll body only when the service mode is `fallback`; in scheduled mode every
iteration sleeps `polling_interval` seconds and skips the body, regardless of
the session state (which the loop never reads).  The claimed behaviour — the
body running in scheduled mode whenever the session state is `polling_active`
or `both_active` — does not hold (see the counterexample).
-/
theorem c7_scheduled_polling :
    polling_start_launches_loop false TriggerMode.scheduled = true
    ∧ (∀ mode, polling_loop_iteration mode = LoopStep.ranPollThenWait ↔
        mode = TriggerMode.fallback) := by
  refine ⟨rfl, ?_⟩
  intro mode
  cases mode <;> simp [polling_loop_iteration]

/-- Counterexample to C7 as stated: the loop thread is started in scheduled
mode, yet its iteration in scheduled mode always skips the poll body — so the
body is silently skipped even while the session state is `both_active` or
`polling_active`. -/
theorem c7_scheduled_polling_counterexample :
    polling_start_launches_loop false TriggerMode.scheduled = true ∧
    polling_loop_iteration TriggerMode.scheduled = LoopStep.skippedSleep := by
  refine ⟨rfl, rfl⟩

/-! Outbound forwarder `MS4BatchSender._send_batch`
(src/core/ms4_batch_sender.py:149-188). -/

inductive BatchResp where
  | resp (status : Nat) (retryAfter : Option Nat)
  | netErr
deriving DecidableEq

inductive SendOutcome where
  | accepted
  | droppedNonRetryable
  | exhausted
deriving DecidableEq

structure SendTrace where
  outcome : SendOutcome
  attemptsMade : Nat
  sleeps : List Nat
deriving DecidableEq

/-- The attempt loop of `_send_batch`: `raise_for_status` turns any status of
400 or above into an `HTTPStatusError`; 400 and 401 break out of the loop
(the batch is dropped), 429 sleeps the `Retry-After` seconds (header default
`base_delay = 1`), every other error status and every network error sleeps
`base_delay * 2 ^ attempt`; a 202 response returns at once, and any other
sub-400 status falls through to the next attempt without sleeping. -/
def sendBatchGo (responses : Nat → BatchResp) : Nat → Nat → List Nat → SendTrace
  | 0, attempt, sleeps => ⟨.exhausted, attempt, sleeps⟩
  | fuel + 1, attempt, sleeps =>
    match responses attempt with
    | .resp s ra =>
      if 400 ≤ s then
        if s = 400 ∨ s = 401 then ⟨.droppedNonRetryable, attempt + 1, sleeps⟩
        else if s = 429 then
          sendBatchGo responses fuel (attempt + 1) (sleeps ++ [ra.getD 1])
        else sendBatchGo responses fuel (attempt + 1) (sleeps ++ [2 ^ attempt])
      else if s = 202 then ⟨.accepted, attempt + 1, sleeps⟩
      else sendBatchGo responses fuel (attempt + 1) sleeps
    | .netErr => sendBatchGo responses fuel (attempt + 1) (sleeps ++ [2 ^ attempt])

/-- Model of `_send_batch` issues at most `max_retries = 5` attempts. -/
def send_batch (responses : Nat → BatchResp) : SendTrace :=
  sendBatchGo responses 5 0 []

theorem sendBatchGo_attempts_le (responses : Nat → BatchResp) :
    ∀ (fuel attempt : Nat) (sleeps : List Nat),
      (sendBatchGo responses fuel attempt sleeps).attemptsMade ≤ attempt + fuel := by
  intro fuel
  induction fuel with
  | zero => intro attempt sleeps; simp [sendBatchGo]
  | succ fuel ih =>
    intro attempt sleeps
    unfold sendBatchGo
    cases responses attempt with
    | resp s ra =>
      dsimp only
      by_cases h4 : 400 ≤ s
      · rw [if_pos h4]
        by_cases hd : s = 400 ∨ s = 401
        · rw [if_pos hd]
          simp
        · rw [if_neg hd]
          by_cases h9 : s = 429
          · rw [if_pos h9]
            calc (sendBatchGo responses fuel (attempt + 1) (sleeps ++ [ra.getD 1])).attemptsMade
                ≤ attempt + 1 + fuel := ih (attempt + 1) _
              _ = attempt + (fuel + 1) := by omega
          · rw [if_neg h9]
            calc (sendBatchGo responses fuel (attempt + 1) (sleeps ++ [2 ^ attempt])).attemptsMade
                ≤ attempt + 1 + fuel := ih (attempt + 1) _
              _ = attempt + (fuel + 1) := by omega
      · rw [if_neg h4]
        by_cases h2 : s = 202
        · rw [if_pos h2]
          simp
        · rw [if_neg h2]
          calc (sendBatchGo responses fuel (attempt + 1) sleeps).attemptsMade
              ≤ attempt + 1 + fuel := ih (attempt + 1) _
            _ = attempt + (fuel + 1) := by omega
    | netErr =>
      dsimp only
      calc (sendBatchGo responses fuel (attempt + 1) (sleeps ++ [2 ^ attempt])).attemptsMade
          ≤ attempt + 1 + fuel := ih (attempt + 1) _
        _ = attempt + (fuel + 1) := by omega

/-- Behaviour of `_send_batch` on a batch, as a function of the sequence of
responses. -/
def SendBatchPost (responses : Nat → BatchResp) : Prop :=
  (send_batch responses).attemptsMade ≤ 5
  ∧ (∀ t v, responses 0 = BatchResp.resp 429 (some t) → responses 1 = BatchResp.resp 202 v →
      send_batch responses = ⟨SendOutcome.accepted, 2, [t]⟩)
  ∧ ((∀ k, responses k = BatchResp.netErr) →
      send_batch responses = ⟨SendOutcome.exhausted, 5, [1, 2, 4, 8, 16]⟩)
  ∧ ((∀ k, responses k = BatchResp.resp 503 none) →
      send_batch responses = ⟨SendOutcome.exhausted, 5, [1, 2, 4, 8, 16]⟩)
  ∧ (∀ ra, responses 0 = BatchResp.resp 400 ra →
      send_batch responses = ⟨SendOutcome.droppedNonRetryable, 1, []⟩)
  ∧ (∀ ra, responses 0 = BatchResp.resp 401 ra →
      send_batch responses = ⟨SendOutcome.droppedNonRetryable, 1, []⟩)
  ∧ (∀ ra, responses 0 = BatchResp.resp 202 ra →
      send_batch responses = ⟨SendOutcome.accepted, 1, []⟩)

/--
Claim C9 (confirmed).  `_send_batch` issues at most 5 POST attempts; after a
429 it waits the `Retry-After` seconds before the next attempt; after other
5xx responses or network errors it waits `1, 2, 4, 8, 16` seconds
(`2 ^ attempt`); a 400 or 401 stops the loop immediately and drops the batch;
and a 202 returns at once, so an accepted batch is never posted twice.
-/
theorem c9_forwarder_retry (responses : Nat → BatchResp) : SendBatchPost responses := by
  unfold SendBatchPost
  refine ⟨sendBatchGo_attempts_le responses 5 0 [], ?_, ?_, ?_, ?_, ?_, ?_⟩
  · intro t v h0 h1
    simp [send_batch, sendBatchGo, h0, h1]
  · intro h
    simp [send_batch, sendBatchGo, h]
  · intro h
    simp [send_batch, sendBatchGo, h]
  · intro ra h0
    simp [send_batch, sendBatchGo, h0]
  · intro ra h0
    simp [send_batch, sendBatchGo, h0]
  · intro ra h0
    simp [send_batch, sendBatchGo, h0]

/-- Response sequence: rate-limited once with `Retry-After: 3`, then accepted. -/
def rateLimitedThenAccepted : Nat → BatchResp :=
  fun k => if k = 0 then BatchResp.resp 429 (some 3) else BatchResp.resp 202 none

/-- Witness for C9 on the 429-then-202 scenario of the specification. -/
theorem c9_forwarder_retry_witness :
    SendBatchPost rateLimitedThenAccepted ∧
    send_batch rateLimitedThenAccepted = ⟨SendOutcome.accepted, 2, [3]⟩ :=
  ⟨c9_forwarder_retry rateLimitedThenAccepted,
    (c9_forwarder_retry rateLimitedThenAccepted).2.1 3 none (by decide) (by decide)⟩
